import Mathlib

/-!
A verification development for the TimeTrackPro server: a shallow embedding of
the in-memory storage layer (`MemStorage`) and of the Express route handlers,
together with theorems checking the documented properties of the time and
leave aggregation engine against this embedding.

Modelling conventions:
* Calendar dates (`YYYY-MM-DD` strings in the source) are modelled as epoch
  day numbers (`Int`).  `new Date(s)` on a well-formed ISO day string yields
  the UTC-midnight timestamp, so string equality coincides with day-number
  equality and `Date` comparison coincides with day-number comparison.
* JavaScript numbers that the code only ever adds, subtracts, multiplies by
  `0.5` and compares are modelled as `ℚ` (all values occurring are exact small
  decimals, so JS floating point computes the same rational values).
* A JS `Map` is modelled as a list of its entries in insertion order:
  `Map.prototype.set` on a fresh key appends, on an existing key overwrites in
  place, and iteration (`values()`, `forEach`) follows insertion order.
* `undefined`/`null` record fields are modelled with `Option`.
-/

namespace TimeTrack

/-- Epoch day number standing for a `YYYY-MM-DD` date string. -/
abbrev Day := Int

/-- Employees table row (shared schema `employees`). -/
structure Employee where
  id : Int
  name : String
  email : String
  password : String
  employeeId : String
  position : String
  phone : Option String
  notifications : Int
deriving Repr, DecidableEq

/-- Projects table row (shared schema `projects`). -/
structure Project where
  id : Int
  name : String
  description : Option String
  channelName : Option String
  channelId : Option String
  projectManagerEmail : Option String
  clientName : Option String
  active : Option Bool
  priority : Option String
  budget : Option String
deriving Repr, DecidableEq

/-- Time entries table row (shared schema `timeEntries`); `hours` is stored as
a decimal string in the source and is always consumed through `Number(...)`,
so we model it by its parsed rational value.  The `createdAt` timestamp is set
on insert and never read by any modelled operation, so it is omitted. -/
structure TimeEntry where
  id : Int
  date : Day
  hours : ℚ
  description : String
  employeeId : Int
  projectId : Int
deriving Repr, DecidableEq

/-- Leave types table row (shared schema `leaveTypes`). -/
structure LeaveType where
  id : Int
  name : String
  description : Option String
  color : Option String
deriving Repr, DecidableEq

/-- Leave allocations table row (shared schema `leaveAllocations`);
`allocatedDays` is a decimal string consumed through `Number(...)`. -/
structure LeaveAllocation where
  id : Int
  employeeId : Int
  leaveTypeId : Int
  allocatedDays : ℚ
  year : Int
deriving Repr, DecidableEq

/-- Leave applications table row (shared schema `leaveApplications`).
`createdAt` is a `Date` timestamp; `none` models a missing (`null`) value. -/
structure LeaveApplication where
  id : Int
  employeeId : Int
  leaveTypeId : Int
  fromDate : Day
  toDate : Day
  isHalfDay : Bool
  reason : String
  status : String
  approvedById : Option Int
  approvedAt : Option Int
  rejectionReason : Option String
  createdAt : Option Int
deriving Repr, DecidableEq

/-- The `MemStorage` state: one insertion-ordered list per `Map`, plus the
auto-increment counters used by the create methods. -/
structure Store where
  employees : List Employee
  projects : List Project
  timeEntries : List TimeEntry
  leaveTypes : List LeaveType
  leaveAllocations : List LeaveAllocation
  leaveApplications : List LeaveApplication
  employeeIdCounter : Int
  projectIdCounter : Int
  timeEntryIdCounter : Int
deriving Repr, DecidableEq

/-- `MemStorage.getProject`: `this.projects.get(id)`. -/
def getProject (s : Store) (id : Int) : Option Project :=
  s.projects.find? (fun p => p.id == id)

/-- `MemStorage.getEmployee`: `this.employees.get(id)`. -/
def getEmployee (s : Store) (id : Int) : Option Employee :=
  s.employees.find? (fun e => e.id == id)

/-- The `entry => ({...entry, project: this.projects.get(entry.projectId)})`
join applied by every time-entry read method. -/
def withProject (s : Store) (l : List TimeEntry) : List (TimeEntry × Option Project) :=
  l.map (fun e => (e, getProject s e.projectId))

/-- `MemStorage.getTimeEntriesByDate`: filter on owner and exact date, then
join project data. -/
def getTimeEntriesByDate (s : Store) (employeeId : Int) (date : Day) :
    List (TimeEntry × Option Project) :=
  withProject s (s.timeEntries.filter
    (fun e => e.employeeId == employeeId && e.date == date))

/-- `MemStorage.getTimeEntriesForWeek`: filter on owner and
`entryDate >= startDate && entryDate <= endDate`, then join project data. -/
def getTimeEntriesForWeek (s : Store) (employeeId : Int) (weekStart weekEnd : Day) :
    List (TimeEntry × Option Project) :=
  withProject s (s.timeEntries.filter
    (fun e => e.employeeId == employeeId &&
      decide (weekStart ≤ e.date) && decide (e.date ≤ weekEnd)))

/-- The `reduce((sum, entry) => sum + Number(entry.hours), 0)` fold used by
`getEmployeeTimeSummary`. -/
def sumHours (l : List (TimeEntry × Option Project)) : ℚ :=
  l.foldl (fun sum e => sum + e.1.hours) 0

/-- `Map.prototype.get` on the `projectHours` map. -/
def hoursMapGet (m : List (Int × ℚ)) (k : Int) : Option ℚ :=
  (m.find? (fun p => p.1 == k)).map (fun p => p.2)

/-- `Map.prototype.set` on the `projectHours` map: overwrite in place when the
key is present, append otherwise. -/
def hoursMapSet (m : List (Int × ℚ)) (k : Int) (v : ℚ) : List (Int × ℚ) :=
  if m.any (fun p => p.1 == k) then
    m.map (fun p => if p.1 == k then (k, v) else p)
  else
    m ++ [(k, v)]

/-- The `projectHours` map built by `getEmployeeTimeSummary`:
`const current = projectHours.get(entry.projectId) || 0;
 projectHours.set(entry.projectId, current + Number(entry.hours))`. -/
def projectHoursOf (l : List (TimeEntry × Option Project)) : List (Int × ℚ) :=
  l.foldl (fun m e => hoursMapSet m e.1.projectId ((hoursMapGet m e.1.projectId).getD 0 + e.1.hours)) []

/-- The `projectHours.forEach` scan keeping the strictly larger running total,
starting from `topProjectId = 0, topProjectHours = 0`. -/
def pickTop (m : List (Int × ℚ)) : Int × ℚ :=
  m.foldl (fun best p => if best.2 < p.2 then p else best) (0, 0)

/-- Result shape of `getEmployeeTimeSummary` (the `topProject` object is
flattened into its two fields). -/
structure TimeSummary where
  todayHours : ℚ
  weekTotal : ℚ
  dailyDiff : ℚ
  topProjectName : String
  topProjectHours : ℚ
deriving Repr, DecidableEq

/-- `MemStorage.getEmployeeTimeSummary`, parameterised by `today`, the epoch
day of the server clock (the source derives `today`, `yesterday = today - 1`
and `weekStart = today - 6` from `Date.now()`). -/
def getEmployeeTimeSummary (s : Store) (employeeId : Int) (today : Day) : TimeSummary :=
  let yesterday := today - 1
  let todayEntries := getTimeEntriesByDate s employeeId today
  let todayHours := sumHours todayEntries
  let yesterdayEntries := getTimeEntriesByDate s employeeId yesterday
  let yesterdayHours := sumHours yesterdayEntries
  let dailyDiff := todayHours - yesterdayHours
  let weekStart := today - 6
  let weekEntries := getTimeEntriesForWeek s employeeId weekStart today
  let weekTotal := sumHours weekEntries
  let top := pickTop (projectHoursOf weekEntries)
  { todayHours := todayHours
    weekTotal := weekTotal
    dailyDiff := dailyDiff
    topProjectName := match getProject s top.1 with
      | some p => p.name
      | none => "None"
    topProjectHours := top.2 }

/-- `MemStorage.getLeaveType`: `this.leaveTypes.get(id)`. -/
def getLeaveType (s : Store) (id : Int) : Option LeaveType :=
  s.leaveTypes.find? (fun t => t.id == id)

/-- `MemStorage.getLeaveAllocationsByEmployee`: filter on owner, then join the
leave type (`this.leaveTypes.get(allocation.leaveTypeId)!`). -/
def getLeaveAllocationsByEmployee (s : Store) (employeeId : Int) :
    List (LeaveAllocation × Option LeaveType) :=
  (s.leaveAllocations.filter (fun a => a.employeeId == employeeId)).map
    (fun a => (a, getLeaveType s a.leaveTypeId))

/-- The comparator passed to `sort` by `getLeaveApplicationsByEmployee`:
newest `createdAt` first, falling back to descending `id` when either
`createdAt` is missing. -/
def leaveAppDescCmp (a b : LeaveApplication) : Int :=
  match a.createdAt, b.createdAt with
  | some ca, some cb => cb - ca
  | _, _ => b.id - a.id

/-- `MemStorage.getLeaveApplicationsByEmployee`: filter on owner, sort with
`leaveAppDescCmp` (JS `Array.prototype.sort` is stable, modelled by the stable
`insertionSort`), then join the leave type. -/
def getLeaveApplicationsByEmployee (s : Store) (employeeId : Int) :
    List (LeaveApplication × Option LeaveType) :=
  ((s.leaveApplications.filter (fun a => a.employeeId == employeeId)).insertionSort
      (fun a b => leaveAppDescCmp a b ≤ 0)).map
    (fun a => (a, getLeaveType s a.leaveTypeId))

/-- The per-application day count added by the `reduce` folds of
`getEmployeeLeaveSummary`:
`days = Math.floor((end - start) / 86400000) + 1` (exactly the day-number
difference plus one, since both dates parse to UTC midnights), halved when
`isHalfDay`. -/
def appliedDays (app : LeaveApplication) : ℚ :=
  let days : ℚ := ((app.toDate - app.fromDate : Int) : ℚ) + 1
  if app.isHalfDay then days * (1 / 2) else days

/-- One row of the `allocations` list in the leave summary response. -/
structure AllocationSummary where
  leaveType : Option LeaveType
  allocated : ℚ
  used : ℚ
  pending : ℚ
  remaining : ℚ
deriving Repr, DecidableEq

/-- Result shape of `getEmployeeLeaveSummary`. -/
structure LeaveSummary where
  allocations : List AllocationSummary
  totalAllocated : ℚ
  totalUsed : ℚ
  totalPending : ℚ
  totalRemaining : ℚ
deriving Repr, DecidableEq

/-- The body of the `allocations.map` callback in `getEmployeeLeaveSummary`:
sum approved and pending applications of this allocation's leave type and
compute `remaining = allocated - used - pending`. -/
def allocationRow (applications : List (LeaveApplication × Option LeaveType))
    (alloc : LeaveAllocation × Option LeaveType) : AllocationSummary :=
  let allocatedDays := alloc.1.allocatedDays
  let usedDays := (applications.filter (fun app =>
      app.1.leaveTypeId == alloc.1.leaveTypeId && app.1.status == "approved")).foldl
    (fun total app => total + appliedDays app.1) 0
  let pendingDays := (applications.filter (fun app =>
      app.1.leaveTypeId == alloc.1.leaveTypeId && app.1.status == "pending")).foldl
    (fun total app => total + appliedDays app.1) 0
  { leaveType := alloc.2
    allocated := allocatedDays
    used := usedDays
    pending := pendingDays
    remaining := allocatedDays - usedDays - pendingDays }

/-- One step of the `allocations.map` traversal together with the running
mutation of the four totals. -/
def leaveStep (applications : List (LeaveApplication × Option LeaveType))
    (acc : List AllocationSummary × ℚ × ℚ × ℚ × ℚ)
    (alloc : LeaveAllocation × Option LeaveType) :
    List AllocationSummary × ℚ × ℚ × ℚ × ℚ :=
  let row := allocationRow applications alloc
  (acc.1 ++ [row], acc.2.1 + row.allocated, acc.2.2.1 + row.used,
    acc.2.2.2.1 + row.pending, acc.2.2.2.2 + row.remaining)

/-- `MemStorage.getEmployeeLeaveSummary`. -/
def getEmployeeLeaveSummary (s : Store) (employeeId : Int) : LeaveSummary :=
  let allocations := getLeaveAllocationsByEmployee s employeeId
  let applications := getLeaveApplicationsByEmployee s employeeId
  let r := allocations.foldl (leaveStep applications) ([], 0, 0, 0, 0)
  { allocations := r.1
    totalAllocated := r.2.1
    totalUsed := r.2.2.1
    totalPending := r.2.2.2.1
    totalRemaining := r.2.2.2.2 }

/-- Generic fact: a `reduce`-style fold adding `f a` step by step computes the
sum of the mapped list. -/
theorem foldl_add_eq_sum {α : Type} (f : α → ℚ) (l : List α) (c : ℚ) :
    l.foldl (fun acc a => acc + f a) c = c + (l.map f).sum := by
  induction l generalizing c with
  | nil => simp
  | cons a t ih => simp [ih, add_assoc]

/-- Restating a filtered sum as a sum of guarded contributions. -/
theorem sum_filter_eq_sum_ite {α : Type} (p : α → Bool) (f : α → ℚ) (l : List α) :
    ((l.filter p).map f).sum = (l.map (fun a => if p a then f a else 0)).sum := by
  induction l with
  | nil => simp
  | cons a t ih =>
    by_cases h : p a
    · simp [List.filter_cons, h, ih]
    · simp [List.filter_cons, h, ih]

/-- C1: for every store, employee and reference day, `weekTotal` is the sum of
the hours of that employee's entries dated in the inclusive trailing window
`[today - 6, today]`; every entry outside the window contributes `0`. -/
theorem C1_weekTotal_is_trailing_window_sum (s : Store) (emp : Int) (today : Day) :
    (getEmployeeTimeSummary s emp today).weekTotal =
      (s.timeEntries.map (fun e =>
        if e.employeeId = emp ∧ today - 6 ≤ e.date ∧ e.date ≤ today then e.hours else 0)).sum := by
  show sumHours (getTimeEntriesForWeek s emp (today - 6) today) = _
  rw [sumHours, getTimeEntriesForWeek, withProject]
  rw [@foldl_add_eq_sum (TimeEntry × Option Project) (fun e => e.1.hours) _ 0, zero_add,
    List.map_map]
  have : ((fun e : TimeEntry × Option Project => e.1.hours) ∘
      (fun e => (e, getProject s e.projectId))) = fun e : TimeEntry => e.hours := rfl
  rw [this, sum_filter_eq_sum_ite]
  congr 1
  apply List.map_congr_left
  intro e _
  by_cases h : e.employeeId = emp ∧ today - 6 ≤ e.date ∧ e.date ≤ today
  · simp [h, h.1, h.2.1, h.2.2]
  · rw [if_neg, if_neg h]
    intro hc
    rw [Bool.and_eq_true, Bool.and_eq_true] at hc
    exact h ⟨beq_iff_eq.mp hc.1.1, of_decide_eq_true hc.1.2, of_decide_eq_true hc.2⟩

/-- Characterisation of the fold inside `getEmployeeLeaveSummary`: it appends
one row per allocation and the four accumulators track the sums of the
corresponding row fields. -/
theorem leaveFold_spec (apps : List (LeaveApplication × Option LeaveType))
    (allocs : List (LeaveAllocation × Option LeaveType))
    (acc : List AllocationSummary × ℚ × ℚ × ℚ × ℚ) :
    allocs.foldl (leaveStep apps) acc =
      (acc.1 ++ allocs.map (allocationRow apps),
        acc.2.1 + ((allocs.map (allocationRow apps)).map (fun r => r.allocated)).sum,
        acc.2.2.1 + ((allocs.map (allocationRow apps)).map (fun r => r.used)).sum,
        acc.2.2.2.1 + ((allocs.map (allocationRow apps)).map (fun r => r.pending)).sum,
        acc.2.2.2.2 + ((allocs.map (allocationRow apps)).map (fun r => r.remaining)).sum) := by
  induction allocs generalizing acc with
  | nil => simp
  | cons a t ih =>
    rw [List.foldl_cons, ih]
    simp [leaveStep, add_assoc]

/-- C3: in every leave summary response every allocation row satisfies
`remaining = allocated - used - pending` exactly (no clamping, negatives
representable since the fields live in `ℚ`), and each of the four totals is
the sum of the corresponding per-row field. -/
theorem C3_remaining_identity_and_totals (s : Store) (emp : Int) :
    (∀ row ∈ (getEmployeeLeaveSummary s emp).allocations,
        row.remaining = row.allocated - row.used - row.pending) ∧
    (getEmployeeLeaveSummary s emp).totalAllocated =
      ((getEmployeeLeaveSummary s emp).allocations.map (fun r => r.allocated)).sum ∧
    (getEmployeeLeaveSummary s emp).totalUsed =
      ((getEmployeeLeaveSummary s emp).allocations.map (fun r => r.used)).sum ∧
    (getEmployeeLeaveSummary s emp).totalPending =
      ((getEmployeeLeaveSummary s emp).allocations.map (fun r => r.pending)).sum ∧
    (getEmployeeLeaveSummary s emp).totalRemaining =
      ((getEmployeeLeaveSummary s emp).allocations.map (fun r => r.remaining)).sum := by
  constructor
  · intro row hrow
    simp only [getEmployeeLeaveSummary, leaveFold_spec, List.nil_append, zero_add] at hrow
    obtain ⟨a, _, rfl⟩ := List.mem_map.mp hrow
    rfl
  · simp [getEmployeeLeaveSummary, leaveFold_spec]

/-- Day span of a leave application as the specification words it:
`floor((toDate − fromDate)/1 day) + 1`, multiplied by `0.5` when
`isHalfDay`. -/
def daySpanSpec (app : LeaveApplication) : ℚ :=
  (((app.toDate - app.fromDate : Int) : ℚ) + 1) * (if app.isHalfDay then 1 / 2 else 1)

/-- The day count the code adds per application agrees with the spec-side day
span. -/
theorem appliedDays_eq_daySpanSpec (app : LeaveApplication) :
    appliedDays app = daySpanSpec app := by
  unfold appliedDays daySpanSpec
  by_cases h : app.isHalfDay <;> simp [h]

/-- The `used`/`pending` fold of one allocation row, traced back to a plain
filtered sum over the application table. -/
theorem allocationRow_fold_eq_store_sum (s : Store) (emp tid : Int) (st : String) :
    ((getLeaveApplicationsByEmployee s emp).filter (fun app =>
        app.1.leaveTypeId == tid && app.1.status == st)).foldl
      (fun total app => total + appliedDays app.1) 0 =
    ((s.leaveApplications.filter (fun a =>
        a.employeeId == emp && a.leaveTypeId == tid && a.status == st)).map
      daySpanSpec).sum := by
  rw [@foldl_add_eq_sum (LeaveApplication × Option LeaveType)
    (fun app => appliedDays app.1) _ 0, zero_add]
  unfold getLeaveApplicationsByEmployee
  rw [List.filter_map, List.map_map]
  have hperm : ((((s.leaveApplications.filter (fun a => a.employeeId == emp)).insertionSort
      (fun a b => leaveAppDescCmp a b ≤ 0)).filter
        ((fun app : LeaveApplication × Option LeaveType =>
          app.1.leaveTypeId == tid && app.1.status == st) ∘
          (fun a => (a, getLeaveType s a.leaveTypeId))))).Perm
      ((s.leaveApplications.filter (fun a => a.employeeId == emp)).filter
        ((fun app : LeaveApplication × Option LeaveType =>
          app.1.leaveTypeId == tid && app.1.status == st) ∘
          (fun a => (a, getLeaveType s a.leaveTypeId)))) :=
    (List.perm_insertionSort _ _).filter _
  rw [List.Perm.sum_eq (List.Perm.map _ hperm)]
  rw [List.filter_filter]
  have hpred : (fun a : LeaveApplication =>
      ((fun app : LeaveApplication × Option LeaveType =>
        app.1.leaveTypeId == tid && app.1.status == st) ∘
        (fun a => (a, getLeaveType s a.leaveTypeId))) a && a.employeeId == emp) =
      (fun a : LeaveApplication =>
        a.employeeId == emp && a.leaveTypeId == tid && a.status == st) := by
    funext a
    simp only [Function.comp]
    rw [Bool.and_comm, Bool.and_assoc]
  rw [hpred]
  have hfun : ((fun app : LeaveApplication × Option LeaveType => appliedDays app.1) ∘
      (fun a : LeaveApplication => (a, getLeaveType s a.leaveTypeId))) = daySpanSpec := by
    funext a
    exact appliedDays_eq_daySpanSpec a
  rw [hfun]

/-- C4: in every leave summary, every allocation row's `used` is the sum of
the spec day-spans over the employee's approved applications of that leave
type, `pending` the same over pending ones; the code's per-application day
count agrees with `floor((toDate − fromDate)/1 day) + 1` halved for half-day
applications, and a single-day application counts `1` day, or `1/2` when
half-day. -/
theorem C4_day_span_and_sums (s : Store) (emp : Int) :
    (∀ row ∈ (getEmployeeLeaveSummary s emp).allocations,
      ∃ alloc ∈ s.leaveAllocations, alloc.employeeId = emp ∧
        row.used = ((s.leaveApplications.filter (fun a =>
            a.employeeId == emp && a.leaveTypeId == alloc.leaveTypeId &&
              a.status == "approved")).map daySpanSpec).sum ∧
        row.pending = ((s.leaveApplications.filter (fun a =>
            a.employeeId == emp && a.leaveTypeId == alloc.leaveTypeId &&
              a.status == "pending")).map daySpanSpec).sum) ∧
    (∀ app : LeaveApplication, appliedDays app = daySpanSpec app) ∧
    (∀ app : LeaveApplication, app.toDate = app.fromDate →
      appliedDays app = if app.isHalfDay then 1 / 2 else 1) := by
  refine ⟨?_, appliedDays_eq_daySpanSpec, ?_⟩
  · intro row hrow
    simp only [getEmployeeLeaveSummary, leaveFold_spec, List.nil_append, zero_add] at hrow
    obtain ⟨a, ha, rfl⟩ := List.mem_map.mp hrow
    unfold getLeaveAllocationsByEmployee at ha
    obtain ⟨al, hal, rfl⟩ := List.mem_map.mp ha
    rw [List.mem_filter] at hal
    refine ⟨al, hal.1, beq_iff_eq.mp hal.2, ?_, ?_⟩
    · show ((getLeaveApplicationsByEmployee s emp).filter _).foldl _ 0 = _
      exact allocationRow_fold_eq_store_sum s emp al.leaveTypeId "approved"
    · show ((getLeaveApplicationsByEmployee s emp).filter _).foldl _ 0 = _
      exact allocationRow_fold_eq_store_sum s emp al.leaveTypeId "pending"
  · intro app h
    unfold appliedDays
    rw [h]
    by_cases hh : app.isHalfDay <;> simp [hh]

/-- C5: neither summary can fail.  For an employee owning no time entries the
time summary is all zeros with the `"None"` sentinel (ids `0` never occur in
the project table, so the initial `topProjectId = 0` resolves to no project),
and for an employee owning no leave allocations the leave summary is an empty
list with four zero totals. -/
theorem C5_empty_data_degrades_to_zeros (s : Store) (emp : Int) (today : Day)
    (hte : ∀ e ∈ s.timeEntries, e.employeeId ≠ emp)
    (hp0 : ∀ p ∈ s.projects, p.id ≠ 0)
    (hal : ∀ a ∈ s.leaveAllocations, a.employeeId ≠ emp) :
    getEmployeeTimeSummary s emp today =
      { todayHours := 0, weekTotal := 0, dailyDiff := 0,
        topProjectName := "None", topProjectHours := 0 } ∧
    getEmployeeLeaveSummary s emp =
      { allocations := [], totalAllocated := 0, totalUsed := 0,
        totalPending := 0, totalRemaining := 0 } := by
  have h1 : ∀ d : Day,
      s.timeEntries.filter (fun e => e.employeeId == emp && e.date == d) = [] := by
    intro d
    rw [List.filter_eq_nil_iff]
    intro e he
    simp [hte e he]
  have h2 : s.timeEntries.filter (fun e => e.employeeId == emp &&
      decide (today - 6 ≤ e.date) && decide (e.date ≤ today)) = [] := by
    rw [List.filter_eq_nil_iff]
    intro e he
    simp [hte e he]
  have h3 : getProject s 0 = none := by
    rw [getProject, List.find?_eq_none]
    intro p hp
    simp [hp0 p hp]
  have h4 : s.leaveAllocations.filter (fun a => a.employeeId == emp) = [] := by
    rw [List.filter_eq_nil_iff]
    intro a ha
    simp [hal a ha]
  constructor
  · simp only [getEmployeeTimeSummary, getTimeEntriesByDate, getTimeEntriesForWeek]
    rw [h1, h1, h2]
    simp [withProject, sumHours, projectHoursOf, pickTop, h3]
  · unfold getEmployeeLeaveSummary getLeaveAllocationsByEmployee
    rw [h4]
    simp

/-- First-occurrence deduplication, accumulator form: the key order in which a
JS `Map` built by repeated `set` calls iterates. -/
def dedupFirstAux (seen : List Int) : List Int → List Int
  | [] => []
  | a :: t => if a ∈ seen then dedupFirstAux seen t else a :: dedupFirstAux (a :: seen) t

/-- First-occurrence deduplication of a key list. -/
def dedupFirst (l : List Int) : List Int :=
  dedupFirstAux [] l

theorem mem_dedupFirstAux {b : Int} {seen l : List Int} :
    b ∈ dedupFirstAux seen l ↔ b ∈ l ∧ b ∉ seen := by
  induction l generalizing seen with
  | nil => simp [dedupFirstAux]
  | cons a t ih =>
    by_cases ha : a ∈ seen
    · rw [dedupFirstAux, if_pos ha, ih]
      constructor
      · exact fun ⟨h1, h2⟩ => ⟨List.mem_cons_of_mem a h1, h2⟩
      · rintro ⟨h1, h2⟩
        rcases List.mem_cons.mp h1 with rfl | h1
        · exact absurd ha h2
        · exact ⟨h1, h2⟩
    · rw [dedupFirstAux, if_neg ha]
      constructor
      · intro hb
        rcases List.mem_cons.mp hb with rfl | hb
        · exact ⟨List.mem_cons_self b t, ha⟩
        · obtain ⟨h1, h2⟩ := ih.mp hb
          exact ⟨List.mem_cons_of_mem a h1,
            fun hc => h2 (List.mem_cons_of_mem a hc)⟩
      · rintro ⟨h1, h2⟩
        rcases List.mem_cons.mp h1 with rfl | h1
        · exact List.mem_cons_self b _
        · by_cases hba : b = a
          · exact hba ▸ List.mem_cons_self a _
          · exact List.mem_cons_of_mem a (ih.mpr ⟨h1, fun hc => by
              rcases List.mem_cons.mp hc with rfl | hc
              · exact hba rfl
              · exact h2 hc⟩)

theorem mem_dedupFirst {b : Int} {l : List Int} : b ∈ dedupFirst l ↔ b ∈ l := by
  rw [dedupFirst, mem_dedupFirstAux]
  simp

theorem dedupFirstAux_append_singleton (seen l : List Int) (a : Int) :
    dedupFirstAux seen (l ++ [a]) =
      if a ∈ seen ∨ a ∈ l then dedupFirstAux seen l
      else dedupFirstAux seen l ++ [a] := by
  induction l generalizing seen with
  | nil =>
    by_cases h : a ∈ seen <;> simp [dedupFirstAux, h]
  | cons x t ih =>
    rw [List.cons_append, dedupFirstAux, dedupFirstAux]
    by_cases hx : x ∈ seen
    · rw [if_pos hx, if_pos hx, ih]
      have heq : (a ∈ seen ∨ a ∈ t) ↔ (a ∈ seen ∨ a ∈ x :: t) := by
        constructor
        · rintro (h | h)
          · exact Or.inl h
          · exact Or.inr (List.mem_cons_of_mem x h)
        · rintro (h | h)
          · exact Or.inl h
          · rcases List.mem_cons.mp h with rfl | h
            · exact Or.inl hx
            · exact Or.inr h
      by_cases hc : a ∈ seen ∨ a ∈ x :: t
      · rw [if_pos (heq.mpr hc), if_pos hc]
      · rw [if_neg (fun hcc => hc (heq.mp hcc)), if_neg hc]
    · rw [if_neg hx, if_neg hx, ih]
      have heq : (a ∈ x :: seen ∨ a ∈ t) ↔ (a ∈ seen ∨ a ∈ x :: t) := by
        constructor
        · rintro (h | h)
          · rcases List.mem_cons.mp h with rfl | h
            · exact Or.inr (List.mem_cons_self a t)
            · exact Or.inl h
          · exact Or.inr (List.mem_cons_of_mem x h)
        · rintro (h | h)
          · exact Or.inl (List.mem_cons_of_mem x h)
          · rcases List.mem_cons.mp h with rfl | h
            · exact Or.inl (List.mem_cons_self a seen)
            · exact Or.inr h
      by_cases hc : a ∈ seen ∨ a ∈ x :: t
      · rw [if_pos (heq.mpr hc), if_pos hc]
      · rw [if_neg (fun hcc => hc (heq.mp hcc)), if_neg hc, List.cons_append]

theorem dedupFirst_append_singleton (l : List Int) (a : Int) :
    dedupFirst (l ++ [a]) =
      if a ∈ l then dedupFirst l else dedupFirst l ++ [a] := by
  rw [dedupFirst, dedupFirstAux_append_singleton]
  simp [dedupFirst]

/-- Keys of a first-occurrence dedup list are strictly ordered by the position
of their first occurrence in the original list. -/
theorem dedupFirstAux_pairwise_indexOf (seen l : List Int) :
    (dedupFirstAux seen l).Pairwise (fun a b => l.indexOf a < l.indexOf b) := by
  induction l generalizing seen with
  | nil => simp [dedupFirstAux]
  | cons x t ih =>
    have hshift : ∀ m : List Int, m.Pairwise (fun a b => t.indexOf a < t.indexOf b) →
        (∀ c ∈ m, c ≠ x) → m.Pairwise (fun a b => (x :: t).indexOf a < (x :: t).indexOf b) := by
      intro m hm hne
      refine List.Pairwise.imp_of_mem ?_ hm
      intro a b ha hb hab
      rw [List.indexOf_cons_ne _ (Ne.symm (hne a ha)),
        List.indexOf_cons_ne _ (Ne.symm (hne b hb))]
      omega
    by_cases hx : x ∈ seen
    · rw [dedupFirstAux, if_pos hx]
      refine hshift _ (ih seen) ?_
      intro c hc
      rcases mem_dedupFirstAux.mp hc with ⟨_, hcs⟩
      intro hcx
      exact hcs (hcx ▸ hx)
    · rw [dedupFirstAux, if_neg hx]
      constructor
      · intro b hb
        rcases mem_dedupFirstAux.mp hb with ⟨hbt, hbs⟩
        have hbx : b ≠ x := fun hc => hbs (hc ▸ List.mem_cons_self x seen)
        rw [List.indexOf_cons_self, List.indexOf_cons_ne _ (Ne.symm hbx)]
        omega
      · refine hshift _ (ih (x :: seen)) ?_
        intro c hc
        rcases mem_dedupFirstAux.mp hc with ⟨_, hcs⟩
        intro hcx
        exact hcs (hcx ▸ List.mem_cons_self x seen)

theorem dedupFirst_pairwise_indexOf (l : List Int) :
    (dedupFirst l).Pairwise (fun a b => l.indexOf a < l.indexOf b) :=
  dedupFirstAux_pairwise_indexOf [] l

/-- Project ids of a joined entry list, in list order. -/
def entryPids (W : List (TimeEntry × Option Project)) : List Int :=
  W.map (fun e => e.1.projectId)

/-- Spec-side per-project hour total over a joined entry list. -/
def projectSum (W : List (TimeEntry × Option Project)) (q : Int) : ℚ :=
  ((W.filter (fun e => e.1.projectId == q)).map (fun e => e.1.hours)).sum

theorem projectSum_append_singleton (W : List (TimeEntry × Option Project))
    (e : TimeEntry × Option Project) (q : Int) :
    projectSum (W ++ [e]) q =
      projectSum W q + if e.1.projectId == q then e.1.hours else 0 := by
  unfold projectSum
  rw [List.filter_append, List.map_append, List.sum_append]
  congr 1
  by_cases h : e.1.projectId == q
  · simp [List.filter_cons, h]
  · simp [List.filter_cons, h]

theorem projectSum_eq_zero_of_not_mem {W : List (TimeEntry × Option Project)} {q : Int}
    (h : q ∉ entryPids W) : projectSum W q = 0 := by
  unfold projectSum
  have hnil : W.filter (fun e => e.1.projectId == q) = [] := by
    rw [List.filter_eq_nil_iff]
    intro e he
    simp only [beq_iff_eq]
    intro hc
    exact h (hc ▸ List.mem_map_of_mem (fun e => e.1.projectId) he)
  rw [hnil]
  rfl

theorem find?_beq_self {k : Int} {l : List Int} (h : k ∈ l) :
    l.find? (fun x => x == k) = some k := by
  induction l with
  | nil => exact absurd h (List.not_mem_nil k)
  | cons x t ih =>
    rcases List.mem_cons.mp h with rfl | h
    · simp [List.find?_cons]
    · by_cases hx : x = k
      · simp [List.find?_cons, hx]
      · rw [List.find?_cons]
        have hxk : (x == k) = false := by simp [hx]
        rw [hxk]
        exact ih h

/-- The `projectHours` map equals the first-occurrence list of project ids
paired with their hour totals. -/
theorem projectHoursOf_eq (W : List (TimeEntry × Option Project)) :
    projectHoursOf W =
      (dedupFirst (entryPids W)).map (fun q => (q, projectSum W q)) := by
  induction W using List.reverseRecOn with
  | nil => rfl
  | append_singleton W e ih =>
    have hpids : entryPids (W ++ [e]) = entryPids W ++ [e.1.projectId] := by
      simp [entryPids]
    have hfold : projectHoursOf (W ++ [e]) =
        hoursMapSet (projectHoursOf W) e.1.projectId
          ((hoursMapGet (projectHoursOf W) e.1.projectId).getD 0 + e.1.hours) := by
      unfold projectHoursOf
      rw [List.foldl_append]
      rfl
    rw [hfold, ih, hpids, dedupFirst_append_singleton]
    by_cases hmem : e.1.projectId ∈ entryPids W
    · rw [if_pos hmem]
      have hget : hoursMapGet
          ((dedupFirst (entryPids W)).map (fun q => (q, projectSum W q))) e.1.projectId =
          some (projectSum W e.1.projectId) := by
        unfold hoursMapGet
        rw [List.find?_map]
        have hfind : (dedupFirst (entryPids W)).find?
            ((fun p : Int × ℚ => p.1 == e.1.projectId) ∘ (fun q => (q, projectSum W q))) =
            some e.1.projectId :=
          find?_beq_self (mem_dedupFirst.mpr hmem)
        rw [hfind]
        rfl
      have hany : (((dedupFirst (entryPids W)).map (fun q => (q, projectSum W q))).any
          (fun p => p.1 == e.1.projectId)) = true := by
        rw [List.any_eq_true]
        exact ⟨(e.1.projectId, projectSum W e.1.projectId),
          List.mem_map_of_mem _ (mem_dedupFirst.mpr hmem), by simp⟩
      rw [hoursMapSet, if_pos hany, hget, List.map_map]
      apply List.map_congr_left
      intro q hq
      simp only [Function.comp]
      by_cases hqk : q = e.1.projectId
      · subst hqk
        rw [if_pos (by simp), projectSum_append_singleton]
        simp
      · rw [if_neg (by simp [hqk]), projectSum_append_singleton]
        have : (e.1.projectId == q) = false := by
          simp [Ne.symm hqk]
        rw [this]
        simp
    · rw [if_neg hmem]
      have hget : hoursMapGet
          ((dedupFirst (entryPids W)).map (fun q => (q, projectSum W q))) e.1.projectId =
          none := by
        unfold hoursMapGet
        rw [List.find?_eq_none.mpr, Option.map_none']
        intro p hp
        obtain ⟨q, hq, rfl⟩ := List.mem_map.mp hp
        simp only [beq_iff_eq]
        intro hc
        exact hmem (hc ▸ mem_dedupFirst.mp hq)
      have hany : (((dedupFirst (entryPids W)).map (fun q => (q, projectSum W q))).any
          (fun p => p.1 == e.1.projectId)) = false := by
        rw [List.any_eq_false]
        intro p hp
        obtain ⟨q, hq, rfl⟩ := List.mem_map.mp hp
        simp only [beq_iff_eq]
        intro hc
        exact hmem (hc ▸ mem_dedupFirst.mp hq)
      rw [hoursMapSet, if_neg (by rw [hany]; exact Bool.false_ne_true), hget, List.map_append]
      congr 1
      · apply List.map_congr_left
        intro q hq
        rw [projectSum_append_singleton]
        have hqk : q ≠ e.1.projectId := fun hc => hmem (hc ▸ mem_dedupFirst.mp hq)
        have : (e.1.projectId == q) = false := by simp [Ne.symm hqk]
        rw [this]
        simp
      · simp only [List.map_cons, List.map_nil, projectSum_append_singleton]
        simp [projectSum_eq_zero_of_not_mem hmem]

theorem pickFold_const (m : List (Int × ℚ)) (b : Int × ℚ)
    (h : ∀ p ∈ m, p.2 ≤ b.2) :
    m.foldl (fun best p => if best.2 < p.2 then p else best) b = b := by
  induction m with
  | nil => rfl
  | cons p t ih =>
    rw [List.foldl_cons, if_neg (not_lt.mpr (h p (List.mem_cons_self p t)))]
    exact ih (fun q hq => h q (List.mem_cons_of_mem p hq))

/-- The strict-comparison scan of `pickTop` lands on the element at the first
index attaining the maximum value, provided some value beats the initial
accumulator. -/
theorem pickFold_first_max (m : List (Int × ℚ)) (b : Int × ℚ)
    (h : ∃ p ∈ m, b.2 < p.2) :
    ∃ i : Fin m.length,
      m.foldl (fun best p => if best.2 < p.2 then p else best) b = m.get i ∧
      b.2 < (m.get i).2 ∧
      (∀ j : Fin m.length, (m.get j).2 ≤ (m.get i).2) ∧
      (∀ j : Fin m.length, (j : ℕ) < (i : ℕ) → (m.get j).2 < (m.get i).2) := by
  induction m generalizing b with
  | nil => simp at h
  | cons p t ih =>
    rw [List.foldl_cons]
    by_cases hb : b.2 < p.2
    · rw [if_pos hb]
      by_cases ht : ∃ q ∈ t, p.2 < q.2
      · obtain ⟨i', h1, h2, h3, h4⟩ := ih p ht
        refine ⟨⟨(i' : ℕ) + 1, Nat.succ_lt_succ i'.isLt⟩, ?_, ?_, ?_, ?_⟩
        · rw [List.get_cons_succ]
          exact h1
        · rw [List.get_cons_succ]
          exact lt_trans hb h2
        · rintro ⟨jv, hj⟩
          cases jv with
          | zero =>
            rw [List.get_cons_succ]
            exact le_of_lt h2
          | succ jv' =>
            rw [List.get_cons_succ, List.get_cons_succ]
            exact h3 ⟨jv', Nat.lt_of_succ_lt_succ hj⟩
        · rintro ⟨jv, hjlt⟩ hj
          cases jv with
          | zero =>
            rw [List.get_cons_succ]
            exact h2
          | succ jv' =>
            rw [List.get_cons_succ, List.get_cons_succ]
            exact h4 ⟨jv', Nat.lt_of_succ_lt_succ hjlt⟩ (Nat.lt_of_succ_lt_succ hj)
      · push_neg at ht
        refine ⟨⟨0, Nat.succ_pos _⟩, ?_, hb, ?_, ?_⟩
        · exact pickFold_const t p ht
        · rintro ⟨jv, hj⟩
          cases jv with
          | zero => exact le_refl _
          | succ jv' =>
            rw [List.get_cons_succ]
            exact ht _ (List.get_mem t _ _)
        · rintro ⟨jv, hjlt⟩ hj
          exact absurd hj (Nat.not_lt_zero jv)
    · rw [if_neg hb]
      have ht : ∃ q ∈ t, b.2 < q.2 := by
        obtain ⟨q, hq, hq2⟩ := h
        rcases List.mem_cons.mp hq with rfl | hq'
        · exact absurd hq2 hb
        · exact ⟨q, hq', hq2⟩
      obtain ⟨i', h1, h2, h3, h4⟩ := ih b ht
      refine ⟨⟨(i' : ℕ) + 1, Nat.succ_lt_succ i'.isLt⟩, ?_, ?_, ?_, ?_⟩
      · rw [List.get_cons_succ]
        exact h1
      · rw [List.get_cons_succ]
        exact h2
      · rintro ⟨jv, hj⟩
        cases jv with
        | zero =>
          rw [List.get_cons_succ]
          exact le_of_lt (lt_of_le_of_lt (not_lt.mp hb) h2)
        | succ jv' =>
          rw [List.get_cons_succ, List.get_cons_succ]
          exact h3 ⟨jv', Nat.lt_of_succ_lt_succ hj⟩
      · rintro ⟨jv, hjlt⟩ hj
        cases jv with
        | zero =>
          rw [List.get_cons_succ]
          exact lt_of_le_of_lt (not_lt.mp hb) h2
        | succ jv' =>
          rw [List.get_cons_succ, List.get_cons_succ]
          exact h4 ⟨jv', Nat.lt_of_succ_lt_succ hjlt⟩ (Nat.lt_of_succ_lt_succ hj)

/-- C2: when the trailing 7-day window holds at least one entry, `topProject`
names a project whose windowed hour total is maximal, its reported hours are
that project's windowed total, and a project tied on total loses to the one
whose first entry occurs earlier in insertion order (`indexOf` on the window's
project-id sequence, which preserves the insertion order of the entry table).
The two store invariants of the data model are assumed: every entry has
positive hours and references an existing project. -/
theorem C2_topProject_max_first (s : Store) (emp : Int) (today : Day)
    (hne : getTimeEntriesForWeek s emp (today - 6) today ≠ [])
    (hpos : ∀ e ∈ s.timeEntries, 0 < e.hours)
    (hfk : ∀ e ∈ s.timeEntries, ∃ p ∈ s.projects, p.id = e.projectId) :
    ∃ pid ∈ entryPids (getTimeEntriesForWeek s emp (today - 6) today), ∃ pr,
      getProject s pid = some pr ∧
      (getEmployeeTimeSummary s emp today).topProjectName = pr.name ∧
      (getEmployeeTimeSummary s emp today).topProjectHours =
        projectSum (getTimeEntriesForWeek s emp (today - 6) today) pid ∧
      (∀ q ∈ entryPids (getTimeEntriesForWeek s emp (today - 6) today),
        projectSum (getTimeEntriesForWeek s emp (today - 6) today) q ≤
          projectSum (getTimeEntriesForWeek s emp (today - 6) today) pid) ∧
      (∀ q ∈ entryPids (getTimeEntriesForWeek s emp (today - 6) today),
        projectSum (getTimeEntriesForWeek s emp (today - 6) today) q =
          projectSum (getTimeEntriesForWeek s emp (today - 6) today) pid →
        (entryPids (getTimeEntriesForWeek s emp (today - 6) today)).indexOf pid ≤
          (entryPids (getTimeEntriesForWeek s emp (today - 6) today)).indexOf q) := by
  set W := getTimeEntriesForWeek s emp (today - 6) today with hW
  have hWsub : ∀ x ∈ W, x.1 ∈ s.timeEntries := by
    intro x hx
    rw [hW, getTimeEntriesForWeek, withProject] at hx
    obtain ⟨e, he, rfl⟩ := List.mem_map.mp hx
    exact List.mem_of_mem_filter he
  have hsum_pos : ∀ q ∈ entryPids W, 0 < projectSum W q := by
    intro q hq
    obtain ⟨x, hxW, hxq⟩ := List.mem_map.mp hq
    have hxfil : x ∈ W.filter (fun e => e.1.projectId == q) :=
      List.mem_filter.mpr ⟨hxW, by simp [hxq]⟩
    apply List.sum_pos
    · intro h hh
      obtain ⟨y, hy, rfl⟩ := List.mem_map.mp hh
      exact hpos y.1 (hWsub y (List.mem_of_mem_filter hy))
    · exact List.ne_nil_of_mem (List.mem_map_of_mem _ hxfil)
  have hpne : entryPids W ≠ [] := by
    intro hc
    exact hne (List.map_eq_nil_iff.mp hc)
  have hex : ∃ p ∈ projectHoursOf W, ((0 : Int), (0 : ℚ)).2 < p.2 := by
    obtain ⟨q, hq⟩ := List.exists_mem_of_ne_nil (entryPids W) hpne
    refine ⟨(q, projectSum W q), ?_, hsum_pos q hq⟩
    rw [projectHoursOf_eq]
    exact List.mem_map_of_mem _ (mem_dedupFirst.mpr hq)
  obtain ⟨i, hfold, hposv, hmax, hfirst⟩ := pickFold_first_max (projectHoursOf W) (0, 0) hex
  have htop : pickTop (projectHoursOf W) = (projectHoursOf W).get i := hfold
  have hlen : (projectHoursOf W).length = (dedupFirst (entryPids W)).length := by
    rw [projectHoursOf_eq, List.length_map]
  have hiD : (i : ℕ) < (dedupFirst (entryPids W)).length := hlen ▸ i.isLt
  have hgetM : ∀ (j : Fin (projectHoursOf W).length),
      (projectHoursOf W).get j =
        ((dedupFirst (entryPids W)).get ⟨(j : ℕ), hlen ▸ j.isLt⟩,
          projectSum W ((dedupFirst (entryPids W)).get ⟨(j : ℕ), hlen ▸ j.isLt⟩)) := by
    intro j
    rw [List.get_of_eq (projectHoursOf_eq W) j]
    exact List.get_map _
  have hval : ∀ (j : Fin (projectHoursOf W).length)
      (hj : (j : ℕ) < (dedupFirst (entryPids W)).length),
      ((projectHoursOf W).get j).2 =
        projectSum W ((dedupFirst (entryPids W)).get ⟨(j : ℕ), hj⟩) := by
    intro j hj
    rw [hgetM j]
  set pid := (dedupFirst (entryPids W)).get ⟨(i : ℕ), hiD⟩ with hpid
  have htopval : pickTop (projectHoursOf W) = (pid, projectSum W pid) := by
    rw [htop, hgetM i]
  have hpidD : pid ∈ dedupFirst (entryPids W) := by
    rw [hpid]
    exact List.get_mem _ _ _
  have hpidW : pid ∈ entryPids W := mem_dedupFirst.mp hpidD
  obtain ⟨x, hxW, hxq⟩ := List.mem_map.mp hpidW
  obtain ⟨pr, hprmem, hprid⟩ := hfk x.1 (hWsub x hxW)
  have hsome : (s.projects.find? (fun p => p.id == pid)).isSome := by
    rw [List.find?_isSome]
    exact ⟨pr, hprmem, by simp [hprid, hxq]⟩
  obtain ⟨pr', hpr'⟩ := Option.isSome_iff_exists.mp hsome
  have hgetpr : getProject s pid = some pr' := hpr'
  refine ⟨pid, hpidW, pr', hgetpr, ?_, ?_, ?_, ?_⟩
  · show (match getProject s (pickTop (projectHoursOf W)).1 with
      | some p => p.name
      | none => "None") = pr'.name
    rw [htopval]
    show (match getProject s pid with
      | some p => p.name
      | none => "None") = pr'.name
    rw [hgetpr]
  · show (pickTop (projectHoursOf W)).2 = projectSum W pid
    rw [htopval]
  · intro q hq
    obtain ⟨j, hjq⟩ := List.mem_iff_get.mp (mem_dedupFirst.mpr hq)
    have hjM : (j : ℕ) < (projectHoursOf W).length := by
      rw [hlen]
      exact j.isLt
    have h1 := hmax ⟨(j : ℕ), hjM⟩
    rw [hval ⟨(j : ℕ), hjM⟩ j.isLt, hval i hiD] at h1
    rw [show (dedupFirst (entryPids W)).get ⟨(j : ℕ), j.isLt⟩ = q from hjq] at h1
    exact h1
  · intro q hq heq
    obtain ⟨j, hjq⟩ := List.mem_iff_get.mp (mem_dedupFirst.mpr hq)
    by_cases hij : (j : ℕ) < (i : ℕ)
    · exfalso
      have hjM : (j : ℕ) < (projectHoursOf W).length := by
        rw [hlen]
        exact j.isLt
      have h1 := hfirst ⟨(j : ℕ), hjM⟩ hij
      rw [hval ⟨(j : ℕ), hjM⟩ j.isLt, hval i hiD] at h1
      rw [show (dedupFirst (entryPids W)).get ⟨(j : ℕ), j.isLt⟩ = q from hjq] at h1
      exact absurd heq (ne_of_lt h1)
    · rcases Nat.lt_or_ge (i : ℕ) (j : ℕ) with hlt | hge
      · have hpw := dedupFirst_pairwise_indexOf (entryPids W)
        rw [List.pairwise_iff_get] at hpw
        have h2 := hpw ⟨(i : ℕ), hiD⟩ j hlt
        rw [hjq] at h2
        have e2 : (dedupFirst (entryPids W)).get ⟨(i : ℕ), hiD⟩ = pid := rfl
        rw [e2] at h2
        exact le_of_lt h2
      · have hij2 : (i : ℕ) = (j : ℕ) := by omega
        have hq2 : pid = q := by
          rw [hpid, ← hjq]
          congr 1
          exact Fin.ext hij2
        rw [hq2]

/-- JS `String.prototype.toLowerCase` restricted to the ASCII strings that
occur as emails (`Char.toLower` lower-cases exactly `A`–`Z`); stated over the
character list so that it evaluates by kernel reduction. -/
def jsToLower (str : String) : String :=
  String.mk (str.data.map Char.toLower)

/-- `MemStorage.getEmployeeByEmail`: the first employee whose lower-cased
email equals the lower-cased query. -/
def getEmployeeByEmail (s : Store) (email : String) : Option Employee :=
  s.employees.find? (fun e => jsToLower e.email == jsToLower email)

/-- Model of JS `parseInt` on the decimal strings occurring in route and
query parameters: skip leading spaces, take an optional sign and then the
longest digit prefix; `none` models `NaN` (no digits found). -/
def jsParseInt (str : String) : Option Int :=
  let chars := str.toList.dropWhile (fun c => c == ' ')
  let signed : Int × List Char :=
    match chars with
    | '-' :: t => (-1, t)
    | '+' :: t => (1, t)
    | t => (1, t)
  let digits := signed.2.takeWhile (fun c => c.isDigit)
  if digits.isEmpty then none
  else some (signed.1 * digits.foldl
    (fun acc c => acc * 10 + ((c.toNat - '0'.toNat : Nat) : Int)) 0)

/-- JSON values occurring in the modelled response bodies. -/
inductive JVal where
  | str (v : String)
  | int (v : Int)
  | null
deriving Repr, DecidableEq

/-- The destructuring
`const { password: _, ...employeeWithoutPassword } = employee` applied before
every employee response: every employee field except `password`, as a JSON
object in field order. -/
def employeeWithoutPassword (e : Employee) : List (String × JVal) :=
  [("id", JVal.int e.id), ("name", JVal.str e.name), ("email", JVal.str e.email),
    ("employeeId", JVal.str e.employeeId), ("position", JVal.str e.position),
    ("phone", match e.phone with | some p => JVal.str p | none => JVal.null),
    ("notifications", JVal.int e.notifications)]

/-- HTTP responses produced by the modelled route handlers. -/
inductive HResp (α : Type) where
  | ok (body : α)
  | badRequest (msg : String)
  | unauthorized (msg : String)
  | notFound (msg : String)
deriving Repr, DecidableEq

/-- Whether a response is a 400 validation error. -/
def isBadRequest {α : Type} : HResp α → Bool
  | HResp.badRequest _ => true
  | _ => false

/-- `POST /api/auth/login` after the zod body check (which only constrains
the email shape and password length): look up by email, `401` when no
employee matches or the password differs, else `200` with the stripped
employee. -/
def loginHandler (s : Store) (email password : String) : HResp (List (String × JVal)) :=
  match getEmployeeByEmail s email with
  | none => HResp.unauthorized "Invalid email or password"
  | some employee =>
    if employee.password ≠ password then HResp.unauthorized "Invalid email or password"
    else HResp.ok (employeeWithoutPassword employee)

/-- `GET /api/auth/me`: employee `1` stands in for the session user. -/
def meHandler (s : Store) : HResp (List (String × JVal)) :=
  match getEmployee s 1 with
  | none => HResp.unauthorized "Not authenticated"
  | some employee => HResp.ok (employeeWithoutPassword employee)

/-- `GET /api/employees/:id`. -/
def getEmployeeHandler (s : Store) (idStr : String) : HResp (List (String × JVal)) :=
  match jsParseInt idStr with
  | none => HResp.badRequest "Invalid employee ID"
  | some id =>
    match getEmployee s id with
    | none => HResp.notFound "Employee not found"
    | some employee => HResp.ok (employeeWithoutPassword employee)

/-- A parsed `insertEmployeeSchema.partial()` body: each field either absent
(`none`) or present; `phone` may also be present-but-`null`. -/
structure EmployeePatch where
  name : Option String
  email : Option String
  password : Option String
  employeeId : Option String
  position : Option String
  phone : Option (Option String)
deriving Repr, DecidableEq

/-- The spread merge `{ ...employee, ...employeeData }`: present patch fields
overwrite, everything else (including `id` and `notifications`, absent from
the patch schema) is kept. -/
def applyEmployeePatch (e : Employee) (u : EmployeePatch) : Employee :=
  { id := e.id
    name := u.name.getD e.name
    email := u.email.getD e.email
    password := u.password.getD e.password
    employeeId := u.employeeId.getD e.employeeId
    position := u.position.getD e.position
    phone := u.phone.getD e.phone
    notifications := e.notifications }

/-- `MemStorage.updateEmployee`: merge and overwrite the entry at the key in
place (entries are keyed by their `id` field). -/
def updateEmployee (s : Store) (id : Int) (u : EmployeePatch) : Store × Option Employee :=
  match getEmployee s id with
  | none => (s, none)
  | some e =>
    let updated := applyEmployeePatch e u
    ({ s with employees := s.employees.map (fun x => if x.id == id then updated else x) },
      some updated)

/-- `PUT /api/employees/:id`. -/
def updateEmployeeHandler (s : Store) (idStr : String) (u : EmployeePatch) :
    Store × HResp (List (String × JVal)) :=
  match jsParseInt idStr with
  | none => (s, HResp.badRequest "Invalid employee ID")
  | some id =>
    match getEmployee s id with
    | none => (s, HResp.notFound "Employee not found")
    | some _ =>
      match updateEmployee s id u with
      | (s', none) => (s', HResp.notFound "Employee not found")
      | (s', some updated) => (s', HResp.ok (employeeWithoutPassword updated))

/-- JS `value || null` on a nullable string field: `undefined`, `null` and
the empty string all collapse to `null`. -/
def orNullStr (v : Option String) : Option String :=
  match v with
  | some str => if str = "" then none else some str
  | none => none

/-- Argument of `createProject` (`InsertProject`): no `id`; nullable string
fields use a single `Option` (`undefined` and `null` are identified, both
collapse to `null` through `|| null`); `active` distinguishes absent
(`none`) from present (`some`, possibly `null`) because `createProject`
tests it with `=== undefined`. -/
structure InsertProject where
  name : String
  description : Option String
  channelName : Option String
  channelId : Option String
  projectManagerEmail : Option String
  clientName : Option String
  active : Option (Option Bool)
  priority : Option String
  budget : Option String
deriving Repr, DecidableEq

/-- `MemStorage.createProject`: assign the next counter id (any `id` on the
argument is ignored), apply the `|| null` normalisations and the `active`
default, and append under the fresh key. -/
def createProject (s : Store) (ip : InsertProject) : Store × Project :=
  let id := s.projectIdCounter
  let project : Project :=
    { id := id
      name := ip.name
      description := orNullStr ip.description
      channelName := orNullStr ip.channelName
      channelId := orNullStr ip.channelId
      projectManagerEmail := orNullStr ip.projectManagerEmail
      clientName := orNullStr ip.clientName
      active := match ip.active with
        | none => some true
        | some v => v
      priority := orNullStr ip.priority
      budget := orNullStr ip.budget }
  ({ s with
      projects := s.projects ++ [project]
      projectIdCounter := s.projectIdCounter + 1 },
    project)

/-- A parsed `insertProjectSchema.partial()` body: outer `Option` is field
presence, inner `Option` is nullability. -/
structure ProjectPatch where
  name : Option String
  description : Option (Option String)
  channelName : Option (Option String)
  channelId : Option (Option String)
  projectManagerEmail : Option (Option String)
  clientName : Option (Option String)
  active : Option (Option Bool)
  priority : Option (Option String)
  budget : Option (Option String)
deriving Repr, DecidableEq

/-- The spread merge `{ ...project, ...updateData }`. -/
def applyProjectPatch (p : Project) (u : ProjectPatch) : Project :=
  { id := p.id
    name := u.name.getD p.name
    description := u.description.getD p.description
    channelName := u.channelName.getD p.channelName
    channelId := u.channelId.getD p.channelId
    projectManagerEmail := u.projectManagerEmail.getD p.projectManagerEmail
    clientName := u.clientName.getD p.clientName
    active := u.active.getD p.active
    priority := u.priority.getD p.priority
    budget := u.budget.getD p.budget }

/-- `PUT /api/projects/:id`: parse the id, `404` when the project is absent,
merge the patch into the stored project, then — as the source's comment
concedes is a stopgap — pass the merged object to `createProject` (which
ignores its `id` and allocates a fresh one) and answer `200` with the merged
object. -/
def updateProjectHandler (s : Store) (idStr : String) (u : ProjectPatch) :
    Store × HResp Project :=
  match jsParseInt idStr with
  | none => (s, HResp.badRequest "Invalid project ID")
  | some id =>
    match getProject s id with
    | none => (s, HResp.notFound "Project not found")
    | some project =>
      let updatedProject := applyProjectPatch project u
      let created := createProject s
        { name := updatedProject.name
          description := updatedProject.description
          channelName := updatedProject.channelName
          channelId := updatedProject.channelId
          projectManagerEmail := updatedProject.projectManagerEmail
          clientName := updatedProject.clientName
          active := some updatedProject.active
          priority := updatedProject.priority
          budget := updatedProject.budget }
      (created.1, HResp.ok updatedProject)

/-- A `POST /api/time-entries` body after the handler's date normalisation
and `projectId` coercion; `none` marks an absent field, `hours` is the
rational value of the decimal string. -/
structure TimeEntryBody where
  date : Option Day
  hours : Option ℚ
  description : Option String
  employeeId : Option Int
  projectId : Option Int
deriving Repr, DecidableEq

/-- A payload accepted by `insertTimeEntrySchema`. -/
structure InsertTimeEntry where
  date : Day
  hours : ℚ
  description : String
  employeeId : Int
  projectId : Int
deriving Repr, DecidableEq

/-- `insertTimeEntrySchema` (drizzle-zod `createInsertSchema(timeEntries)`
with `id`/`createdAt` omitted): every remaining column must be present with
its column type, and nothing further is constrained — no positivity bound on
`hours`, no length bound on `description`. -/
def insertTimeEntrySchemaParse (b : TimeEntryBody) : Option InsertTimeEntry :=
  match b.date, b.hours, b.description, b.employeeId, b.projectId with
  | some date, some hours, some description, some employeeId, some projectId =>
    some { date := date, hours := hours, description := description,
           employeeId := employeeId, projectId := projectId }
  | _, _, _, _, _ => none

/-- `MemStorage.createTimeEntry`: next counter id, append under the fresh
key. -/
def createTimeEntry (s : Store) (it : InsertTimeEntry) : Store × TimeEntry :=
  let te : TimeEntry :=
    { id := s.timeEntryIdCounter
      date := it.date
      hours := it.hours
      description := it.description
      employeeId := it.employeeId
      projectId := it.projectId }
  ({ s with
      timeEntries := s.timeEntries ++ [te]
      timeEntryIdCounter := s.timeEntryIdCounter + 1 },
    te)

/-- `POST /api/time-entries`: parse with the insert schema, `400` on schema
failure, else store and answer `201`. -/
def createTimeEntryHandler (s : Store) (b : TimeEntryBody) : Store × HResp TimeEntry :=
  match insertTimeEntrySchemaParse b with
  | none => (s, HResp.badRequest "validation error")
  | some it =>
    let r := createTimeEntry s it
    (r.1, HResp.ok r.2)

/-- `GET /api/time-entries/summary`:
`const employeeId = parseInt(req.query.employeeId as string) || 1` — `NaN`
(absent or unparseable parameter) and `0` are falsy and default to `1` — and
the aggregation engine is then invoked unconditionally. -/
def timeEntrySummaryHandler (s : Store) (employeeIdParam : Option String) (today : Day) :
    HResp TimeSummary :=
  let employeeId : Int :=
    match employeeIdParam.bind jsParseInt with
    | none => 1
    | some 0 => 1
    | some n => n
  HResp.ok (getEmployeeTimeSummary s employeeId today)

/-- Concrete fixture: the first seeded demo employee. -/
def sarah : Employee :=
  { id := 1, name := "Sarah Johnson", email := "sarah@example.com",
    password := "password123", employeeId := "EMP001",
    position := "Software Engineer", phone := some "555-1234", notifications := 0 }

/-- Concrete fixture: the second seeded demo employee. -/
def john : Employee :=
  { id := 2, name := "John Smith", email := "john@example.com",
    password := "password123", employeeId := "EMP002",
    position := "UI Designer", phone := some "555-5678", notifications := 0 }

/-- Concrete fixture project with id 1. -/
def websiteProject : Project :=
  { id := 1, name := "Website Redesign",
    description := some "Overhaul of company website", channelName := none,
    channelId := none, projectManagerEmail := none, clientName := none,
    active := some true, priority := none, budget := none }

/-- Concrete fixture project with id 2. -/
def mobileProject : Project :=
  { id := 2, name := "Mobile App", description := none, channelName := none,
    channelId := none, projectManagerEmail := none, clientName := none,
    active := some true, priority := none, budget := none }

/-- Concrete fixture time entries for employee 1 (reference day 100; entry 4
falls outside the trailing week). -/
def te1 : TimeEntry :=
  { id := 1, date := 100, hours := 7/2, description := "API integration",
    employeeId := 1, projectId := 2 }

def te2 : TimeEntry :=
  { id := 2, date := 100, hours := 2, description := "Homepage fixes",
    employeeId := 1, projectId := 1 }

def te3 : TimeEntry :=
  { id := 3, date := 99, hours := 4, description := "Data visualization",
    employeeId := 1, projectId := 1 }

def te4 : TimeEntry :=
  { id := 4, date := 80, hours := 5, description := "Old work",
    employeeId := 1, projectId := 1 }

/-- Concrete fixture leave type. -/
def annualLeave : LeaveType :=
  { id := 1, name := "Annual Leave", description := none, color := some "#10B981" }

/-- Concrete fixture allocation for employee 1. -/
def alloc1 : LeaveAllocation :=
  { id := 1, employeeId := 1, leaveTypeId := 1, allocatedDays := 21, year := 2025 }

/-- Concrete fixture applications: a 3-day approved one and a half-day
pending one. -/
def app1 : LeaveApplication :=
  { id := 1, employeeId := 1, leaveTypeId := 1, fromDate := 50, toDate := 52,
    isHalfDay := false, reason := "Flu", status := "approved",
    approvedById := none, approvedAt := none, rejectionReason := none,
    createdAt := some 10 }

def app2 : LeaveApplication :=
  { id := 2, employeeId := 1, leaveTypeId := 1, fromDate := 120, toDate := 120,
    isHalfDay := true, reason := "Appointment", status := "pending",
    approvedById := none, approvedAt := none, rejectionReason := none,
    createdAt := some 20 }

/-- Concrete fixture store used by the witness theorems. -/
def wStore : Store :=
  { employees := [sarah, john]
    projects := [websiteProject, mobileProject]
    timeEntries := [te1, te2, te3, te4]
    leaveTypes := [annualLeave]
    leaveAllocations := [alloc1]
    leaveApplications := [app1, app2]
    employeeIdCounter := 3
    projectIdCounter := 3
    timeEntryIdCounter := 5 }

/-- A store with no records at all. -/
def emptyStore : Store :=
  { employees := [], projects := [], timeEntries := [], leaveTypes := [],
    leaveAllocations := [], leaveApplications := [],
    employeeIdCounter := 1, projectIdCounter := 1, timeEntryIdCounter := 1 }

/-- A store holding only project 1, as left by one `createProject`. -/
def oneProjectStore : Store :=
  { employees := [], projects := [websiteProject], timeEntries := [],
    leaveTypes := [], leaveAllocations := [], leaveApplications := [],
    employeeIdCounter := 1, projectIdCounter := 2, timeEntryIdCounter := 1 }

/-- A patch that only renames. -/
def renamePatch : ProjectPatch :=
  { name := some "New Name", description := none, channelName := none,
    channelId := none, projectManagerEmail := none, clientName := none,
    active := none, priority := none, budget := none }

/-- C6: evaluating the project update endpoint on a store holding only
project 1 shows the merge-semantics claim failing on the store: the stored
project 1 is left unchanged, a duplicate carrying the merged fields is
appended under the fresh id 2 (so the set of project ids grows), while the
`200` response body pretends an in-place update of project 1. -/
theorem C6_update_endpoint_inserts_duplicate :
    (updateProjectHandler oneProjectStore "1" renamePatch).1.projects.map (fun p => p.id)
      = [1, 2] ∧
    getProject (updateProjectHandler oneProjectStore "1" renamePatch).1 1 =
      some websiteProject ∧
    (∃ p2, getProject (updateProjectHandler oneProjectStore "1" renamePatch).1 2 = some p2 ∧
      p2.name = "New Name") ∧
    (updateProjectHandler oneProjectStore "1" renamePatch).2 =
      HResp.ok { websiteProject with name := "New Name" } := by
  decide

/-- C7 (counterexample): with an absent or unparseable `employeeId` the
summary endpoint does not reject the request: it answers `200` with the
aggregation engine's output for the default employee `1`. -/
theorem C7_counterexample_no_validation_error :
    isBadRequest (timeEntrySummaryHandler wStore (some "abc") 100) = false ∧
    timeEntrySummaryHandler wStore (some "abc") 100 =
      HResp.ok (getEmployeeTimeSummary wStore 1 100) ∧
    timeEntrySummaryHandler wStore none 100 =
      HResp.ok (getEmployeeTimeSummary wStore 1 100) := by
  refine ⟨rfl, rfl, rfl⟩

/-- C7 (amended): when the `employeeId` query parameter is absent or does
not parse to a non-zero integer, the handler substitutes the default
employee id `1` and invokes the aggregation engine on it; no validation
error is produced. -/
theorem C7_amended_default_employee (s : Store) (today : Day) (p : Option String)
    (h : p.bind jsParseInt = none ∨ p.bind jsParseInt = some 0) :
    timeEntrySummaryHandler s p today = HResp.ok (getEmployeeTimeSummary s 1 today) := by
  unfold timeEntrySummaryHandler
  rcases h with h | h <;> simp [h]

theorem C7_amended_witness :
    timeEntrySummaryHandler wStore (some "abc") 100 =
      HResp.ok (getEmployeeTimeSummary wStore 1 100) :=
  C7_amended_default_employee wStore 100 (some "abc") (Or.inl (by decide))

/-- A body with zero hours and an empty description. -/
def zeroHoursBody : TimeEntryBody :=
  { date := some 100, hours := some 0, description := some "",
    employeeId := some 1, projectId := some 1 }

/-- C8 (counterexample): the create endpoint accepts a body with `hours = 0`
and an empty description and stores the offending entry, so the claimed
invariant is not enforced for reachable store states. -/
theorem C8_counterexample_zero_hours_accepted :
    (insertTimeEntrySchemaParse zeroHoursBody).isSome = true ∧
    (∃ te ∈ (createTimeEntryHandler emptyStore zeroHoursBody).1.timeEntries,
      te.hours = 0 ∧ te.description = "") ∧
    isBadRequest (createTimeEntryHandler emptyStore zeroHoursBody).2 = false := by
  decide

/-- C8 (amended): the server-side insert schema checks only that each column
is present with its column type and passes the values through unchanged; the
`hours > 0` and description-length bounds live only in the client form, so
they do not constrain the states reachable through the API. -/
theorem C8_schema_checks_presence_only (b : TimeEntryBody) :
    ((insertTimeEntrySchemaParse b).isSome = true ↔
      (b.date.isSome = true ∧ b.hours.isSome = true ∧ b.description.isSome = true ∧
        b.employeeId.isSome = true ∧ b.projectId.isSome = true)) ∧
    (∀ it, insertTimeEntrySchemaParse b = some it →
      b.hours = some it.hours ∧ b.description = some it.description) := by
  obtain ⟨d, h, de, em, pj⟩ := b
  cases d <;> cases h <;> cases de <;> cases em <;> cases pj <;>
    simp [insertTimeEntrySchemaParse]

theorem C8_amended_witness :
    zeroHoursBody.hours = some 0 ∧ zeroHoursBody.description = some "" :=
  (C8_schema_checks_presence_only zeroHoursBody).2
    { date := 100, hours := 0, description := "", employeeId := 1, projectId := 1 }
    (by decide)

/-- C9: every endpoint that answers with an employee object strips the
password: the stripped body lists exactly the seven non-password fields, and
each of the four handlers (login, current user, get by id, update) only ever
returns stripped bodies of the relevant store employee. -/
theorem C9_employee_responses_omit_password (s : Store) :
    (∀ e : Employee,
      ("password" ∉ (employeeWithoutPassword e).map Prod.fst) ∧
      (employeeWithoutPassword e).map Prod.fst =
        ["id", "name", "email", "employeeId", "position", "phone", "notifications"]) ∧
    (∀ email pwd body, loginHandler s email pwd = HResp.ok body →
      ∃ e, getEmployeeByEmail s email = some e ∧ body = employeeWithoutPassword e) ∧
    (∀ body, meHandler s = HResp.ok body →
      ∃ e, getEmployee s 1 = some e ∧ body = employeeWithoutPassword e) ∧
    (∀ idStr body, getEmployeeHandler s idStr = HResp.ok body →
      ∃ id e, jsParseInt idStr = some id ∧ getEmployee s id = some e ∧
        body = employeeWithoutPassword e) ∧
    (∀ idStr u s' body, updateEmployeeHandler s idStr u = (s', HResp.ok body) →
      ∃ id e, jsParseInt idStr = some id ∧ getEmployee s id = some e ∧
        body = employeeWithoutPassword (applyEmployeePatch e u)) := by
  refine ⟨?_, ?_, ?_, ?_, ?_⟩
  · intro e
    exact ⟨by simp [employeeWithoutPassword], rfl⟩
  · intro email pwd body h
    unfold loginHandler at h
    split at h
    · cases h
    · rename_i e heq
      split at h
      · cases h
      · injection h with hbody
        exact ⟨e, heq, hbody.symm⟩
  · intro body h
    unfold meHandler at h
    split at h
    · cases h
    · rename_i e heq
      injection h with hbody
      exact ⟨e, heq, hbody.symm⟩
  · intro idStr body h
    unfold getEmployeeHandler at h
    split at h
    · cases h
    · rename_i id hid
      split at h
      · cases h
      · rename_i e heq
        injection h with hbody
        exact ⟨id, e, hid, heq, hbody.symm⟩
  · intro idStr u s' body h
    unfold updateEmployeeHandler at h
    split at h
    · injection h with h1 h2
      cases h2
    · rename_i id hid
      split at h
      · injection h with h1 h2
        cases h2
      · rename_i e heq
        split at h
        · injection h with h1 h2
          cases h2
        · rename_i s'' updated hupd
          injection h with h1 h2
          injection h2 with h2
          have hupd2 : applyEmployeePatch e u = updated := by
            unfold updateEmployee at hupd
            rw [heq] at hupd
            injection hupd with hu1 hu2
            injection hu2 with hu2
          exact ⟨id, e, hid, heq, by rw [← h2, ← hupd2]⟩

theorem C9_witness :
    "password" ∉ (employeeWithoutPassword sarah).map Prod.fst ∧
    (∃ e, getEmployeeByEmail wStore "sarah@example.com" = some e ∧
      employeeWithoutPassword sarah = employeeWithoutPassword e) :=
  ⟨((C9_employee_responses_omit_password wStore).1 sarah).1,
    (C9_employee_responses_omit_password wStore).2.1 "sarah@example.com" "password123"
      (employeeWithoutPassword sarah) (by decide)⟩

theorem find?_eq_some_of_unique {α : Type} {p : α → Bool} {l : List α} {a : α}
    (ha : a ∈ l) (hpa : p a = true) (huniq : ∀ x ∈ l, p x = true → x = a) :
    l.find? p = some a := by
  induction l with
  | nil => cases ha
  | cons x t ih =>
    rcases List.mem_cons.mp ha with rfl | hat
    · rw [List.find?_cons, hpa]
    · by_cases hx : p x = true
      · rw [List.find?_cons, hx, huniq x (List.mem_cons_self x t) hx]
      · have hxf : p x = false := by
          revert hx
          cases p x <;> simp
        rw [List.find?_cons, hxf]
        exact ih hat (fun y hy hpy => huniq y (List.mem_cons_of_mem x hy) hpy)

/-- C10: employee lookup by email lower-cases both sides, so (whenever
lower-cased emails are distinct across the store, the case-insensitive
reading of the schema's unique-email invariant) any query agreeing with a
stored email up to letter case finds that employee, and login with the
correct password then succeeds with the stripped employee body. -/
theorem C10_email_lookup_case_insensitive (s : Store)
    (hdist : ∀ e1 ∈ s.employees, ∀ e2 ∈ s.employees,
      jsToLower e1.email = jsToLower e2.email → e1 = e2)
    (e : Employee) (he : e ∈ s.employees) (q : String)
    (hq : jsToLower q = jsToLower e.email) :
    getEmployeeByEmail s q = some e ∧
    loginHandler s q e.password = HResp.ok (employeeWithoutPassword e) := by
  have hfind : getEmployeeByEmail s q = some e := by
    unfold getEmployeeByEmail
    apply find?_eq_some_of_unique he
    · simp [hq]
    · intro x hx hpx
      simp only [beq_iff_eq] at hpx
      exact hdist x hx e he (by rw [hpx, hq])
  refine ⟨hfind, ?_⟩
  unfold loginHandler
  rw [hfind]
  simp

theorem C10_witness :
    getEmployeeByEmail wStore "SARAH@Example.COM" = some sarah ∧
    loginHandler wStore "SARAH@Example.COM" sarah.password =
      HResp.ok (employeeWithoutPassword sarah) :=
  C10_email_lookup_case_insensitive wStore (by decide) sarah (by decide)
    "SARAH@Example.COM" (by decide)

/-- The single allocation row of the fixture store's leave summary. -/
def wRow : AllocationSummary :=
  { leaveType := some annualLeave, allocated := 21, used := 3,
    pending := 1/2, remaining := 35/2 }

theorem C3_witness :
    (wRow.remaining = wRow.allocated - wRow.used - wRow.pending) ∧
    (getEmployeeLeaveSummary wStore 1).totalAllocated =
      ((getEmployeeLeaveSummary wStore 1).allocations.map (fun r => r.allocated)).sum :=
  ⟨(C3_remaining_identity_and_totals wStore 1).1 wRow (by with_unfolding_all decide),
    (C3_remaining_identity_and_totals wStore 1).2.1⟩

theorem C4_witness :
    (∃ alloc ∈ wStore.leaveAllocations, alloc.employeeId = 1 ∧
      wRow.used = ((wStore.leaveApplications.filter (fun a =>
          a.employeeId == 1 && a.leaveTypeId == alloc.leaveTypeId &&
            a.status == "approved")).map daySpanSpec).sum ∧
      wRow.pending = ((wStore.leaveApplications.filter (fun a =>
          a.employeeId == 1 && a.leaveTypeId == alloc.leaveTypeId &&
            a.status == "pending")).map daySpanSpec).sum) ∧
    appliedDays app2 = 1 / 2 := by
  refine ⟨(C4_day_span_and_sums wStore 1).1 wRow (by with_unfolding_all decide), ?_⟩
  have h := (C4_day_span_and_sums wStore 1).2.2 app2 (by decide)
  rwa [if_pos (by decide : app2.isHalfDay = true)] at h

theorem C5_witness :
    getEmployeeTimeSummary wStore 2 100 =
      { todayHours := 0, weekTotal := 0, dailyDiff := 0,
        topProjectName := "None", topProjectHours := 0 } ∧
    getEmployeeLeaveSummary wStore 2 =
      { allocations := [], totalAllocated := 0, totalUsed := 0,
        totalPending := 0, totalRemaining := 0 } :=
  C5_empty_data_degrades_to_zeros wStore 2 100 (by decide) (by decide) (by decide)

theorem C2_witness :
    ∃ pid ∈ entryPids (getTimeEntriesForWeek wStore 1 (100 - 6) 100), ∃ pr,
      getProject wStore pid = some pr ∧
      (getEmployeeTimeSummary wStore 1 100).topProjectName = pr.name ∧
      (getEmployeeTimeSummary wStore 1 100).topProjectHours =
        projectSum (getTimeEntriesForWeek wStore 1 (100 - 6) 100) pid ∧
      (∀ q ∈ entryPids (getTimeEntriesForWeek wStore 1 (100 - 6) 100),
        projectSum (getTimeEntriesForWeek wStore 1 (100 - 6) 100) q ≤
          projectSum (getTimeEntriesForWeek wStore 1 (100 - 6) 100) pid) ∧
      (∀ q ∈ entryPids (getTimeEntriesForWeek wStore 1 (100 - 6) 100),
        projectSum (getTimeEntriesForWeek wStore 1 (100 - 6) 100) q =
          projectSum (getTimeEntriesForWeek wStore 1 (100 - 6) 100) pid →
        (entryPids (getTimeEntriesForWeek wStore 1 (100 - 6) 100)).indexOf pid ≤
          (entryPids (getTimeEntriesForWeek wStore 1 (100 - 6) 100)).indexOf q) :=
  C2_topProject_max_first wStore 1 100 (by with_unfolding_all decide)
    (by with_unfolding_all decide) (by decide)

end TimeTrack
